import Mathlib

/-
Verification development for `upload_results.py` (wolfv/continuous_benchmark).
The definitions below are a shallow embedding of the script's data
transformations: the results-file scanner (`main`, lines 189-202), the
comparator (lines 219-250), the header reordering (lines 240-243), the gist
upsert policy (lines 252-285), the graphite metric naming (`send_graphite`,
lines 163-178) and the notification tail of `main` (lines 287-325).
Python text is modelled over Lean `String`/`List Char`; CSV numbers over `Rat`;
raised exceptions over `Except`/`Option`.
-/

/-- Model of Python `s.startswith(pre)`. -/
def pyStartsWith (s pre : String) : Bool :=
  pre.data.isPrefixOf s.data

/-- The six ASCII whitespace characters stripped by Python `str.strip()`. -/
def isSpaceChar (c : Char) : Bool :=
  c == ' ' || c == '\t' || c == '\n' || c == '\x0d' || c == '\x0b' || c == '\x0c'

/-- Model of Python `s.strip()` (default whitespace stripping). -/
def pyStrip (s : String) : String :=
  String.mk (((s.data.dropWhile isSpaceChar).reverse.dropWhile isSpaceChar).reverse)

/-- Helper for `pyFind`: first index of `c` in `s` counting from `i`, else -1. -/
def pyFindAux (c : Char) : List Char → Int → Int
  | [], _ => -1
  | a :: rest, i => if a == c then i else pyFindAux c rest (i + 1)

/-- Model of Python `s.find(c)`: index of the first occurrence of `c`, or -1. -/
def pyFind (s : List Char) (c : Char) : Int :=
  pyFindAux c s 0

/-- Model of Python `list.index(x)` (first index; caller guarantees membership). -/
def pyIndex (xs : List String) (x : String) : Nat :=
  match xs with
  | [] => 0
  | a :: rest => if a = x then 0 else pyIndex rest x + 1

/-- Model of Python `list.remove(x)`: drop the first occurrence of `x`. -/
def pyRemove (xs : List String) (x : String) : List String :=
  match xs with
  | [] => []
  | a :: rest => if a = x then rest else a :: pyRemove rest x

/-- Model of Python `list.insert(i, x)` (indices past the end append, as in Python). -/
def pyListInsert (xs : List String) (i : Nat) (x : String) : List String :=
  xs.take i ++ x :: xs.drop i

/-- A parsed `datetime.datetime` value (date and time fields only, as used here). -/
structure PyDateTime where
  year : Nat
  month : Nat
  day : Nat
  hour : Nat
  minute : Nat
  second : Nat
deriving DecidableEq, Repr

/-- Numeric value of a decimal digit character. -/
def digitVal (c : Char) : Nat :=
  c.toNat - '0'.toNat

/-- Read exactly four decimal digits (CPython strptime `%Y`). -/
def read4 : List Char → Option (Nat × List Char)
  | a :: b :: c :: d :: rest =>
    if a.isDigit && b.isDigit && c.isDigit && d.isDigit then
      some ((((digitVal a * 10 + digitVal b) * 10 + digitVal c) * 10 + digitVal d), rest)
    else none
  | _ => none

/-- Read one or two decimal digits, greedily (CPython strptime `%m %d %H %M %S`). -/
def read12 : List Char → Option (Nat × List Char)
  | [] => none
  | [a] => if a.isDigit then some (digitVal a, []) else none
  | a :: b :: rest =>
    if a.isDigit then
      if b.isDigit then some (digitVal a * 10 + digitVal b, rest)
      else some (digitVal a, b :: rest)
    else none

/-- Consume one expected literal character. -/
def expectChar (c : Char) : List Char → Option (List Char)
  | [] => none
  | a :: rest => if a == c then some rest else none

/-- Consume one or more whitespace characters (strptime treats a space in the
format as `\s+`). -/
def skipSpaces1 : List Char → Option (List Char)
  | [] => none
  | a :: rest => if isSpaceChar a then some (rest.dropWhile isSpaceChar) else none

/-- Gregorian leap-year rule, as used by Python `datetime`. -/
def isLeapYear (y : Nat) : Bool :=
  y % 4 == 0 && (y % 100 != 0 || y % 400 == 0)

/-- Number of days in a month, as validated by the Python `datetime` constructor. -/
def daysInMonth (y m : Nat) : Nat :=
  if m = 2 then (if isLeapYear y then 29 else 28)
  else if m = 4 || m = 6 || m = 9 || m = 11 then 30
  else 31

/-- Model of `datetime.strptime(s, "%Y-%m-%d %H:%M:%S")`: field widths and
separators follow CPython's `_strptime` patterns, and the range checks follow
the `datetime` constructor; `none` models the raised `ValueError`. -/
def parseDateTime (s : String) : Option PyDateTime := do
  let (y, r1) ← read4 s.data
  let r2 ← expectChar '-' r1
  let (mo, r3) ← read12 r2
  let r4 ← expectChar '-' r3
  let (d, r5) ← read12 r4
  let r6 ← skipSpaces1 r5
  let (h, r7) ← read12 r6
  let r8 ← expectChar ':' r7
  let (mi, r9) ← read12 r8
  let r10 ← expectChar ':' r9
  let (sec, r11) ← read12 r10
  if r11 = [] ∧ 1 ≤ y ∧ 1 ≤ mo ∧ mo ≤ 12 ∧ 1 ≤ d ∧ d ≤ daysInMonth y mo
      ∧ h ≤ 23 ∧ mi ≤ 59 ∧ sec ≤ 59 then
    some ⟨y, mo, d, h, mi, sec⟩
  else none

/-- The mode-switch test of `main`, line 193:
`line.startswith("name,iterations,real_time,cpu_time")`. -/
def isTableHeaderLine (line : String) : Bool :=
  pyStartsWith line "name,iterations,real_time,cpu_time"

/-- The accumulation part of the scanning loop of `main` (lines 189-199):
`cpy` is the mode flag; lines are appended to `bench_results` once in table
mode and to `add_meta_data` before that.  Returned as
`(add_meta_data lines, bench_results lines)`. -/
def parseResults : List String → Bool → List String × List String
  | [], _ => ([], [])
  | line :: rest, cpy =>
    let cpy2 := cpy || isTableHeaderLine line
    let r := parseResults rest cpy2
    if cpy2 then (r.1, line :: r.2) else (line :: r.1, r.2)

/-- The `ValueError` raised by `datetime.strptime` on a malformed date line
(`main`, line 201). -/
def dateFormatError : String :=
  "ValueError: time data does not match format %Y-%m-%d %H:%M:%S"

/-- The full scanning loop of `main` (lines 189-202): accumulation as in
`parseResults`, and in metadata mode every line starting with "20" is parsed
with `datetime.strptime(line.strip(), "%Y-%m-%d %H:%M:%S")`, rebinding
`benchdate`; a parse failure raises and aborts the loop. -/
def scanResults : List String → Bool → Option PyDateTime →
    Except String (List String × List String × Option PyDateTime)
  | [], _, d => Except.ok ([], [], d)
  | line :: rest, cpy, d =>
    let cpy2 := cpy || isTableHeaderLine line
    if cpy2 then
      match scanResults rest cpy2 d with
      | Except.ok (m, t, dd) => Except.ok (m, line :: t, dd)
      | Except.error e => Except.error e
    else if pyStartsWith line "20" then
      match parseDateTime (pyStrip line) with
      | none => Except.error dateFormatError
      | some dt =>
        match scanResults rest cpy2 (some dt) with
        | Except.ok (m, t, dd) => Except.ok (line :: m, t, dd)
        | Except.error e => Except.error e
    else
      match scanResults rest cpy2 d with
      | Except.ok (m, t, dd) => Except.ok (line :: m, t, dd)
      | Except.error e => Except.error e

/-- One row of the benchmark table (the columns of the google-benchmark CSV
other than the `name` index). -/
structure BenchRow where
  iterations : Rat
  real_time : Rat
  cpu_time : Rat
  time_unit : String
deriving DecidableEq, Repr

/-- A parsed benchmark table: rows keyed by the `name` index column, in file
order (`pd.read_csv(..., index_col=0)`). -/
abbrev ResultSet := List (String × BenchRow)

/-- Helper for `dedupFirst`: keep rows whose key was not seen before.  This is
`df_current_results[~df_current_results.index.duplicated(keep='first')]`
(`main`, lines 228-232) with `seen` the set of keys of earlier rows. -/
def dedupFirstAux : List (String × BenchRow) → List String → List (String × BenchRow)
  | [], _ => []
  | r :: rest, seen =>
    if r.1 ∈ seen then dedupFirstAux rest seen
    else r :: dedupFirstAux rest (r.1 :: seen)

/-- Deduplication of the current table by key, keeping first occurrences
(`main`, lines 228-232). -/
def dedupFirst (rs : ResultSet) : ResultSet :=
  dedupFirstAux rs []

/-- Helper for `duplicateKeys`: the keys flagged by
`index.duplicated(keep='first')`, i.e. keys of rows whose key was seen before. -/
def duplicateKeysAux : List (String × BenchRow) → List String → List String
  | [], _ => []
  | r :: rest, seen =>
    if r.1 ∈ seen then r.1 :: duplicateKeysAux rest seen
    else duplicateKeysAux rest (r.1 :: seen)

/-- The keys printed by the duplicate warning,
`df_current_results.index[duplicates]` (`main`, lines 230-231). -/
def duplicateKeys (rs : ResultSet) : List String :=
  duplicateKeysAux rs []

/-- The comparison step of `main` (lines 234-238): index-aligned
`(current[['cpu_time']] - last[['cpu_time']]) / last[['cpu_time']]` assigned to
the new `difference_master` column.  A current key present in the baseline
gets the relative change against the baseline row of that key; a current key
absent from the baseline gets NaN, modelled as `none`. -/
def addRelativeChange (cur base : ResultSet) : List (String × BenchRow × Option Rat) :=
  cur.map (fun p =>
    match base.find? (fun q => q.1 == p.1) with
    | some q => (p.1, p.2, some ((p.2.cpu_time - q.2.cpu_time) / q.2.cpu_time))
    | none => (p.1, p.2, none))

/-- The exception raised at `main` line 250: in the no-baseline branch,
`print(df_current_results[['cpu_time']])` reads the local
`df_current_results`, which is assigned only inside the `if master_gist:`
branch (line 226), so Python raises `UnboundLocalError`. -/
def ubError : String :=
  "UnboundLocalError: local variable df_current_results referenced before assignment"

/-- The comparison stage of `main` (lines 219-250): with a baseline gist the
current table is deduplicated and the `difference_master` column is computed;
without one, control reaches line 250 and the unassigned-local error is
raised. -/
def resultsStage (master : Option ResultSet) (cur : ResultSet) :
    Except String (List (String × BenchRow × Option Rat)) :=
  match master with
  | some base => Except.ok (addRelativeChange (dedupFirst cur) base)
  | none => Except.error ubError

/-- The column reordering of `main` (lines 240-243):
`headers.remove('difference_master')` then
`headers.insert(headers.index('time_unit') + 1, 'difference_master')`. -/
def reorderHeaders (headers : List String) : List String :=
  let hs := pyRemove headers "difference_master"
  pyListInsert hs (pyIndex hs "time_unit" + 1) "difference_master"

/-- The metric-name rewrite of `send_graphite` (lines 171-173):
`idx = name.find('_'); if idx: name[idx] = '.'`.  Note Python's `if idx:` is
false exactly when `idx == 0`, and `name[-1]` is the last character. -/
def graphiteMetricName (name : List Char) : List Char :=
  let idx := pyFind name '_'
  if idx ≠ 0 then
    if idx = -1 then name.set (name.length - 1) '.'
    else name.set idx.toNat '.'
  else name

/-- The full metric path: `graphitesend.init` is given the prefix
`f"{hostname}.{branch}"` (line 169), which the metrics backend prepends to
every pushed metric name. -/
def graphiteMetricPath (host branch key : String) : String :=
  host ++ "." ++ branch ++ "." ++ String.mk (graphiteMetricName key.data)

/-- One gist as seen through `gist.list()`: its id and description. -/
structure GistEntry where
  id : String
  description : String
deriving DecidableEq, Repr

/-- The publish step performed on the snippet store: edit an existing gist by
id, or create a new one with the run's description. -/
inductive GistAction where
  | edit : String → GistAction
  | create : String → GistAction
deriving DecidableEq, Repr

/-- The search loop of `main` (lines 252-256): first gist whose description
starts with the computed description. -/
def findUpdateGist (gists : List GistEntry) (descr : String) : Option GistEntry :=
  gists.find? (fun d => pyStartsWith d.description descr)

/-- The upsert policy of `main` (lines 258-285): edit the found gist in place,
otherwise create a new gist with the computed description. -/
def choosePublishAction (gists : List GistEntry) (descr : String) : GistAction :=
  match findUpdateGist gists descr with
  | some g => GistAction.edit g.id
  | none => GistAction.create descr

/-- The run description computed by `get_meta_info` (lines 135-138):
`"{hostname}_{branch}"`. -/
def runDescription (host branch : String) : String :=
  host ++ "_" ++ branch

/-- Observable effects of the tail of `main` (lines 252-325). -/
inductive PipeEvent where
  | published : GistAction → PipeEvent
  | graphiteWarning : String → PipeEvent
  | mailSent : String → String → PipeEvent
deriving DecidableEq, Repr

/-- `send_graphite` (lines 163-178): the graphite init/send block runs inside
`try/except Exception`, so a failing push (`pushOutcome = error e`) only
produces the warning printout and the function returns normally. -/
def send_graphite_events (pushOutcome : Except String Unit) : List PipeEvent :=
  match pushOutcome with
  | Except.ok _ => []
  | Except.error e => [PipeEvent.graphiteWarning e]

/-- `send_mail` (lines 142-161): builds one message and issues a single
`session.sendmail(MAIL_SENDER, recipient, ...)` call for its `recipient`
argument. -/
def send_mail_events (sender recipient : String) : List PipeEvent :=
  [PipeEvent.mailSent sender recipient]

/-- The tail of `main` (lines 252-325), in source order: the gist upsert
(whose HTTP outcome `gistOutcome` is fatal when an error), then — when
`GRAPHITE_SERVER` is configured — `send_graphite` with external push outcome
`pushOutcome`, then the email step `send_mail(MAIL_RECEIVER[0], ...)`
(line 322), which raises `IndexError` on an empty recipient list. -/
def pipelineTail (gists : List GistEntry) (descr : String)
    (gistOutcome : Except String Unit) (graphiteServer : Bool)
    (pushOutcome : Except String Unit) (sender : String)
    (receivers : List String) : Except String (List PipeEvent) :=
  match gistOutcome with
  | Except.error e => Except.error e
  | Except.ok _ =>
    let pub := [PipeEvent.published (choosePublishAction gists descr)]
    let gr := if graphiteServer then send_graphite_events pushOutcome else []
    match receivers with
    | [] => Except.error "IndexError: list index out of range"
    | r :: _ => Except.ok (pub ++ gr ++ send_mail_events sender r)

/-- The mail dispatches among a list of pipeline events, as (sender,
recipient) pairs. -/
def sentMails (evs : List PipeEvent) : List (String × String) :=
  evs.filterMap (fun e =>
    match e with
    | PipeEvent.mailSent s r => some (s, r)
    | _ => none)

/-- C3: the claim says that with no baseline the comparison output passes the
current ResultSet through unchanged and the pipeline goes on to publish it.
The code instead reaches `print(df_current_results[['cpu_time']])` in the
else-branch (line 250) with `df_current_results` assigned only in the baseline
branch (line 226), so every no-baseline run raises `UnboundLocalError` and
produces no comparison output at all. -/
theorem noBaseline_crash (cur : ResultSet) :
    resultsStage none cur = Except.error ubError := by
  rfl

/-- C6: the claim says each pushed metric name is the record key with its
first underscore replaced by '.'.  The code's guard `if idx:` (line 172)
treats `find`'s -1 (no underscore) as true, so a key without any underscore
has its LAST character replaced by '.', and treats index 0 as false, so a key
whose first character is an underscore is left unchanged.  Keys whose first
underscore sits at a positive index, and the `{host}.{branch}` prefixing, do
follow the claim. -/
theorem metricName_bug :
    graphiteMetricName "benchfoo".data = "benchfo.".data
    ∧ pyFind "benchfoo".data '_' = -1
    ∧ graphiteMetricName "_foo".data = "_foo".data
    ∧ pyFind "_foo".data '_' = 0
    ∧ graphiteMetricName "bench_copy".data = "bench.copy".data
    ∧ graphiteMetricPath "host" "master" "benchfoo" = "host.master.benchfo." := by
  refine ⟨by decide, by decide, by decide, by decide, by decide, by decide⟩

/-- C9: a failing metrics push is caught inside `send_graphite`'s
`try/except` (lines 168-178): the pipeline records only the warning, the gist
publish has already happened (lines 252-285 precede line 287), and the email
dispatch still takes place. -/
theorem graphite_failure_nonfatal (gists : List GistEntry) (descr e sender r : String)
    (rest : List String) :
    pipelineTail gists descr (Except.ok ()) true (Except.error e) sender (r :: rest) =
      Except.ok [PipeEvent.published (choosePublishAction gists descr),
        PipeEvent.graphiteWarning e, PipeEvent.mailSent sender r]
    ∧ sentMails [PipeEvent.published (choosePublishAction gists descr),
        PipeEvent.graphiteWarning e, PipeEvent.mailSent sender r] = [(sender, r)] := by
  exact ⟨rfl, rfl⟩

/-- C2 (counterexample): the claim says the parser switches into table mode
only when a line exactly matches the expected header
`name,iterations,real_time,cpu_time,...`, and that table_text is empty when
the header never appears.  The code tests `line.startswith(...)` (line 193),
so the line "name,iterations,real_time,cpu_timeXY" — which is neither the
bare four-column header nor any header extending it with further
comma-separated columns — still switches the parser into table mode. -/
theorem headerSwitch_counterexample :
    parseResults ["name,iterations,real_time,cpu_timeXY"] false =
      ([], ["name,iterations,real_time,cpu_timeXY"])
    ∧ pyStartsWith "name,iterations,real_time,cpu_timeXY"
        "name,iterations,real_time,cpu_time,time_unit" = false
    ∧ ("name,iterations,real_time,cpu_timeXY" == "name,iterations,real_time,cpu_time") = false := by
  refine ⟨by decide, by decide, by decide⟩

/-- Once the copy flag is set, every remaining line goes to the table text. -/
lemma parseResults_copyAll (lines : List String) : parseResults lines true = ([], lines) := by
  induction lines with
  | nil => rfl
  | cons l rest ih => simp [parseResults, ih]

/-- C2 (amended): the parser switches into table mode at the first line that
STARTS WITH the prefix `name,iterations,real_time,cpu_time` (a prefix test,
line 193, not an exact match of the full header).  For any input whose first
such line is at index k, the metadata text is exactly lines [0,k) and the
table text exactly lines [k,end); if no line carries the prefix, the whole
input is metadata and the table text is empty. -/
theorem headerSwitch_split :
    (∀ (lines : List String) (k : Nat) (hk : k < lines.length),
       isTableHeaderLine (lines.get ⟨k, hk⟩) = true →
       (∀ j (hj : j < k), isTableHeaderLine (lines.get ⟨j, Nat.lt_trans hj hk⟩) = false) →
       parseResults lines false = (lines.take k, lines.drop k))
    ∧ (∀ lines : List String, (∀ l, l ∈ lines → isTableHeaderLine l = false) →
       parseResults lines false = (lines, [])) := by
  constructor
  · intro lines
    induction lines with
    | nil => intro k hk; exact absurd hk (Nat.not_lt_zero k)
    | cons l rest ih =>
      intro k hk hhead hfirst
      cases k with
      | zero =>
        have hh : isTableHeaderLine l = true := hhead
        simp [parseResults, hh, parseResults_copyAll]
      | succ k =>
        have h0 : isTableHeaderLine l = false := hfirst 0 (Nat.succ_pos k)
        have hh : isTableHeaderLine (rest.get ⟨k, Nat.lt_of_succ_lt_succ hk⟩) = true := hhead
        have ih' := ih k (Nat.lt_of_succ_lt_succ hk) hh
          (fun j hj => hfirst (j + 1) (Nat.succ_lt_succ hj))
        simp [parseResults, h0, ih']
  · intro lines h
    induction lines with
    | nil => rfl
    | cons l rest ih =>
      have h0 : isTableHeaderLine l = false := h l (List.mem_cons_self l rest)
      have ih' := ih (fun x hx => h x (List.mem_cons_of_mem l hx))
      simp [parseResults, h0, ih']

/-- Witness for `headerSwitch_split` at a concrete three-line input and at a
concrete header-free input. -/
theorem headerSwitch_split_witness :
    parseResults ["meta line", "name,iterations,real_time,cpu_time,time_unit",
      "bench_a,1,2,3,ns"] false =
      (["meta line"], ["name,iterations,real_time,cpu_time,time_unit", "bench_a,1,2,3,ns"])
    ∧ parseResults ["alpha", "beta"] false = (["alpha", "beta"], []) := by
  constructor
  · have hk : 1 < (["meta line", "name,iterations,real_time,cpu_time,time_unit",
        "bench_a,1,2,3,ns"] : List String).length := by decide
    exact headerSwitch_split.1
      ["meta line", "name,iterations,real_time,cpu_time,time_unit", "bench_a,1,2,3,ns"]
      1 hk
      ((by decide : isTableHeaderLine "name,iterations,real_time,cpu_time,time_unit" = true))
      (fun j hj => by
        have hj0 : j = 0 := Nat.lt_one_iff.mp hj
        subst hj0
        exact (by decide : isTableHeaderLine "meta line" = false))
  · exact headerSwitch_split.2 ["alpha", "beta"] (by intro l hl; fin_cases hl <;> decide)

/-- C7: in metadata mode every line beginning with "20" is parsed with
`datetime.strptime(line.strip(), "%Y-%m-%d %H:%M:%S")` (lines 200-202): the
line "2024-03-01 12:00:00" yields March 1 2024 12:00:00, and a "20"-prefixed
line that does not parse in that format raises the `ValueError`, which is not
caught anywhere in `main`. -/
theorem date_extraction :
    parseDateTime "2024-03-01 12:00:00" = some ⟨2024, 3, 1, 12, 0, 0⟩
    ∧ scanResults ["model name: cpu", "2024-03-01 12:00:00"] false none =
        Except.ok (["model name: cpu", "2024-03-01 12:00:00"], [], some ⟨2024, 3, 1, 12, 0, 0⟩)
    ∧ (∀ (l : String) (rest : List String) (d : Option PyDateTime),
        pyStartsWith l "20" = true → isTableHeaderLine l = false →
        parseDateTime (pyStrip l) = none →
        scanResults (l :: rest) false d = Except.error dateFormatError) := by
  refine ⟨by decide, by rfl, ?_⟩
  intro l rest d h20 hhd hbad
  simp [scanResults, hhd, h20, hbad]

/-- Two rows of a table with pairwise distinct keys agree once their keys do. -/
lemma nodupKeysUnique (l : List (String × BenchRow))
    (hn : (l.map Prod.fst).Nodup) (p q : String × BenchRow)
    (hp : p ∈ l) (hq : q ∈ l) (hpq : p.1 = q.1) : p = q := by
  induction l with
  | nil => exact absurd hp (List.not_mem_nil p)
  | cons a t ih =>
    rw [List.map_cons, List.nodup_cons] at hn
    rcases List.mem_cons.mp hp with rfl | hp' <;> rcases List.mem_cons.mp hq with rfl | hq'
    · rfl
    · exact absurd (hpq ▸ List.mem_map_of_mem Prod.fst hq') hn.1
    · exact absurd (hpq ▸ List.mem_map_of_mem Prod.fst hp') hn.1
    · exact ih hn.2 hp' hq'

/-- Key lookup on a cons whose head carries the key. -/
lemma find?_key_cons_eq (a : String × BenchRow) (l : List (String × BenchRow)) (k : String)
    (h : a.1 = k) : (a :: l).find? (fun q => q.1 == k) = some a := by
  simp [List.find?, h]

/-- Key lookup on a cons whose head carries a different key. -/
lemma find?_key_cons_ne (a : String × BenchRow) (l : List (String × BenchRow)) (k : String)
    (h : ¬(a.1 = k)) :
    (a :: l).find? (fun q => q.1 == k) = l.find? (fun q => q.1 == k) := by
  have hb : (a.1 == k) = false := Bool.eq_false_iff.mpr (fun hbt => h (eq_of_beq hbt))
  simp [List.find?, hb]

/-- C1: in the comparison of lines 234-238, every current row whose key also
labels a (unique) baseline row receives the relative change
`(current.cpu_time - baseline.cpu_time) / baseline.cpu_time`, and every
current row whose key has no baseline match carries no relative-change value
at all (`none`, the model of pandas NaN — not zero and not an error). -/
theorem relativeChange_matches_baseline (cur base : ResultSet)
    (hn : (base.map Prod.fst).Nodup) (k : String) (r : BenchRow) (rc : Option Rat)
    (hmem : (k, r, rc) ∈ addRelativeChange cur base) :
    (∀ b, (k, b) ∈ base → rc = some ((r.cpu_time - b.cpu_time) / b.cpu_time))
    ∧ ((∀ b : BenchRow, (k, b) ∉ base) → rc = none) := by
  unfold addRelativeChange at hmem
  rw [List.mem_map] at hmem
  obtain ⟨p, hp, heq⟩ := hmem
  obtain ⟨pk, pr⟩ := p
  cases hfind : base.find? (fun q => q.1 == pk) with
  | some q =>
    have heq2 : (pk, pr, some ((pr.cpu_time - q.2.cpu_time) / q.2.cpu_time)) = (k, r, rc) := by
      have heq1 : (match base.find? (fun q => q.1 == pk) with
        | some q => (pk, pr, some ((pr.cpu_time - q.2.cpu_time) / q.2.cpu_time))
        | none => (pk, pr, none)) = (k, r, rc) := heq
      rw [hfind] at heq1
      exact heq1
    obtain ⟨q1, q2⟩ := q
    simp only [Prod.mk.injEq] at heq2
    obtain ⟨hk, hr, hrc⟩ := heq2
    have hqmem : (q1, q2) ∈ base := List.mem_of_find?_eq_some hfind
    have hqbeq := List.find?_some hfind
    have hq1 : q1 = k := (eq_of_beq hqbeq).trans hk
    constructor
    · intro b hb
      have hqe : (q1, q2) = (k, b) :=
        nodupKeysUnique base hn (q1, q2) (k, b) hqmem hb hq1
      have hq2 : q2 = b := congrArg Prod.snd hqe
      rw [← hrc, ← hr, ← hq2]
    · intro hnone
      exact absurd (hq1 ▸ hqmem) (hnone q2)
  | none =>
    have heq2 : ((pk, pr, none) : String × BenchRow × Option Rat) = (k, r, rc) := by
      have heq1 : (match base.find? (fun q => q.1 == pk) with
        | some q => (pk, pr, some ((pr.cpu_time - q.2.cpu_time) / q.2.cpu_time))
        | none => (pk, pr, none)) = (k, r, rc) := heq
      rw [hfind] at heq1
      exact heq1
    simp only [Prod.mk.injEq] at heq2
    obtain ⟨hk, hr, hrc⟩ := heq2
    constructor
    · intro b hb
      have hall := List.find?_eq_none.mp hfind (k, b) hb
      exact absurd (beq_iff_eq.mpr hk.symm) hall
    · intro _
      exact hrc.symm

/-- Witness for `relativeChange_matches_baseline`: baseline cpu_time 100 and
current cpu_time 120 yield relative change 1/5 = 0.2, matching the spec. -/
theorem relativeChange_witness :
    ((([("X", BenchRow.mk 10 5 100 "ns")] : ResultSet).map Prod.fst).Nodup)
    ∧ (("X", BenchRow.mk 10 5 120 "ns",
        some (((BenchRow.mk 10 5 120 "ns").cpu_time - (BenchRow.mk 10 5 100 "ns").cpu_time) /
          (BenchRow.mk 10 5 100 "ns").cpu_time)) ∈
        addRelativeChange [("X", BenchRow.mk 10 5 120 "ns")]
          [("X", BenchRow.mk 10 5 100 "ns")])
    ∧ (("X", BenchRow.mk 10 5 100 "ns") ∈ ([("X", BenchRow.mk 10 5 100 "ns")] : ResultSet))
    ∧ some (((BenchRow.mk 10 5 120 "ns").cpu_time - (BenchRow.mk 10 5 100 "ns").cpu_time) /
        (BenchRow.mk 10 5 100 "ns").cpu_time) = some ((1 : Rat) / 5)
    ∧ (some (((BenchRow.mk 10 5 120 "ns").cpu_time - (BenchRow.mk 10 5 100 "ns").cpu_time) /
        (BenchRow.mk 10 5 100 "ns").cpu_time) : Option Rat) =
        some (((BenchRow.mk 10 5 120 "ns").cpu_time - (BenchRow.mk 10 5 100 "ns").cpu_time) /
          (BenchRow.mk 10 5 100 "ns").cpu_time) :=
  ⟨by simp, List.Mem.head _, List.Mem.head _, by norm_num,
   (relativeChange_matches_baseline [("X", BenchRow.mk 10 5 120 "ns")]
      [("X", BenchRow.mk 10 5 100 "ns")] (by simp) "X" (BenchRow.mk 10 5 120 "ns")
      (some (((BenchRow.mk 10 5 120 "ns").cpu_time - (BenchRow.mk 10 5 100 "ns").cpu_time) /
        (BenchRow.mk 10 5 100 "ns").cpu_time)) (List.Mem.head _)).1
      (BenchRow.mk 10 5 100 "ns") (List.Mem.head _)⟩

/-- The dedup filter only drops rows. -/
lemma dedupFirstAux_sublist (rs : List (String × BenchRow)) :
    ∀ seen, (dedupFirstAux rs seen).Sublist rs := by
  induction rs with
  | nil => intro seen; exact List.Sublist.refl []
  | cons r rest ih =>
    intro seen
    simp only [dedupFirstAux]
    by_cases h : r.1 ∈ seen
    · rw [if_pos h]; exact List.Sublist.cons r (ih seen)
    · rw [if_neg h]; exact List.Sublist.cons₂ r (ih (r.1 :: seen))

/-- The dedup filter leaves pairwise distinct keys, none of them seen before. -/
lemma dedupFirstAux_nodup (rs : List (String × BenchRow)) :
    ∀ seen, ((dedupFirstAux rs seen).map Prod.fst).Nodup ∧
      ∀ k, k ∈ (dedupFirstAux rs seen).map Prod.fst → k ∉ seen := by
  induction rs with
  | nil => intro seen; exact ⟨List.nodup_nil, fun k hk => absurd hk (List.not_mem_nil k)⟩
  | cons r rest ih =>
    intro seen
    simp only [dedupFirstAux]
    by_cases h : r.1 ∈ seen
    · rw [if_pos h]; exact ih seen
    · rw [if_neg h]
      obtain ⟨hnd, hmem⟩ := ih (r.1 :: seen)
      refine ⟨?_, ?_⟩
      · rw [List.map_cons]
        exact List.nodup_cons.mpr ⟨fun hc => (hmem r.1 hc) (List.mem_cons_self _ _), hnd⟩
      · intro k hk
        rw [List.map_cons] at hk
        rcases List.mem_cons.mp hk with rfl | hk'
        · exact h
        · exact fun hks => (hmem k hk') (List.mem_cons_of_mem _ hks)

/-- The dedup filter preserves the first row found for every unseen key. -/
lemma dedupFirstAux_find (rs : List (String × BenchRow)) :
    ∀ seen k,
      (k ∉ seen → (dedupFirstAux rs seen).find? (fun p => p.1 == k) =
        rs.find? (fun p => p.1 == k)) ∧
      (k ∈ seen → (dedupFirstAux rs seen).find? (fun p => p.1 == k) = none) := by
  induction rs with
  | nil => intro seen k; exact ⟨fun _ => rfl, fun _ => rfl⟩
  | cons r rest ih =>
    intro seen k
    constructor
    · intro hk
      simp only [dedupFirstAux]
      by_cases h : r.1 ∈ seen
      · rw [if_pos h]
        have hrk : ¬(r.1 = k) := fun he => hk (he ▸ h)
        rw [find?_key_cons_ne r rest k hrk]
        exact (ih seen k).1 hk
      · rw [if_neg h]
        by_cases hrk : r.1 = k
        · rw [find?_key_cons_eq r (dedupFirstAux rest (r.1 :: seen)) k hrk,
            find?_key_cons_eq r rest k hrk]
        · rw [find?_key_cons_ne r (dedupFirstAux rest (r.1 :: seen)) k hrk,
            find?_key_cons_ne r rest k hrk]
          refine (ih (r.1 :: seen) k).1 (fun hin => ?_)
          rcases List.mem_cons.mp hin with h1 | h2
          · exact hrk h1.symm
          · exact hk h2
    · intro hk
      simp only [dedupFirstAux]
      by_cases h : r.1 ∈ seen
      · rw [if_pos h]; exact (ih seen k).2 hk
      · rw [if_neg h]
        have hrk : ¬(r.1 = k) := fun he => h (he ▸ hk)
        rw [find?_key_cons_ne r (dedupFirstAux rest (r.1 :: seen)) k hrk]
        exact (ih (r.1 :: seen) k).2 (List.mem_cons_of_mem _ hk)

/-- Every row whose key is unseen keeps a representative with its key. -/
lemma dedupFirstAux_covers (rs : List (String × BenchRow)) :
    ∀ seen p, p ∈ rs → p.1 ∉ seen → ∃ q, q ∈ dedupFirstAux rs seen ∧ q.1 = p.1 := by
  induction rs with
  | nil => intro seen p hp; exact absurd hp (List.not_mem_nil p)
  | cons r rest ih =>
    intro seen p hp hps
    simp only [dedupFirstAux]
    by_cases h : r.1 ∈ seen
    · rw [if_pos h]
      rcases List.mem_cons.mp hp with rfl | hp'
      · exact absurd h hps
      · exact ih seen p hp' hps
    · rw [if_neg h]
      rcases List.mem_cons.mp hp with rfl | hp'
      · exact ⟨_, List.mem_cons_self _ _, rfl⟩
      · by_cases hpr : p.1 = r.1
        · exact ⟨r, List.mem_cons_self r _, hpr.symm⟩
        · obtain ⟨q, hq, hqe⟩ := ih (r.1 :: seen) p hp'
            (fun hin => by
              rcases List.mem_cons.mp hin with h1 | h2
              · exact hpr h1
              · exact hps h2)
          exact ⟨q, List.mem_cons_of_mem r hq, hqe⟩

/-- Surviving rows and warned keys partition the input rows. -/
lemma dedup_partition (rs : List (String × BenchRow)) :
    ∀ seen, (dedupFirstAux rs seen).length + (duplicateKeysAux rs seen).length = rs.length := by
  induction rs with
  | nil => intro seen; rfl
  | cons r rest ih =>
    intro seen
    simp only [dedupFirstAux, duplicateKeysAux]
    by_cases h : r.1 ∈ seen
    · rw [if_pos h, if_pos h]
      have := ih seen
      simp only [List.length_cons]
      omega
    · rw [if_neg h, if_neg h]
      have := ih (r.1 :: seen)
      simp only [List.length_cons]
      omega

/-- C4: the dedup step (lines 228-232) keeps exactly the first occurrence of
each key and drops all later occurrences (the deduplicated table is a
key-nodup sublist of the input that covers every input key and preserves
first-occurrence lookups), the warning lists exactly the discarded keys (one
per dropped row), no error is raised (the step is a total function of the
rows, independent of whether the warning is printed), and two rows sharing a
key collapse to the first row. -/
theorem dedup_first_occurrence (rs : ResultSet) :
    (dedupFirst rs).Sublist rs
    ∧ ((dedupFirst rs).map Prod.fst).Nodup
    ∧ (∀ p, p ∈ rs → ∃ q, q ∈ dedupFirst rs ∧ q.1 = p.1)
    ∧ (∀ k, (dedupFirst rs).find? (fun p => p.1 == k) = rs.find? (fun p => p.1 == k))
    ∧ (dedupFirst rs).length + (duplicateKeys rs).length = rs.length
    ∧ (∀ k v1 v2, dedupFirst [(k, v1), (k, v2)] = [(k, v1)]
        ∧ duplicateKeys [(k, v1), (k, v2)] = [k]) := by
  refine ⟨dedupFirstAux_sublist rs [], (dedupFirstAux_nodup rs []).1, ?_, ?_,
    dedup_partition rs [], ?_⟩
  · intro p hp
    exact dedupFirstAux_covers rs [] p hp (List.not_mem_nil p.1)
  · intro k
    exact (dedupFirstAux_find rs [] k).1 (List.not_mem_nil k)
  · intro k v1 v2
    constructor
    · simp [dedupFirst, dedupFirstAux]
    · simp [duplicateKeys, duplicateKeysAux]

/-- Witness for `dedup_first_occurrence`: first-occurrence lookup for key "a"
on a table with a duplicated "a" row. -/
theorem dedup_witness :
    (dedupFirst [("a", BenchRow.mk 1 1 1 "ns"), ("a", BenchRow.mk 2 2 2 "ns"),
        ("b", BenchRow.mk 3 3 3 "ns")]).find? (fun p => p.1 == "a") =
      ([("a", BenchRow.mk 1 1 1 "ns"), ("a", BenchRow.mk 2 2 2 "ns"),
        ("b", BenchRow.mk 3 3 3 "ns")] : ResultSet).find? (fun p => p.1 == "a") :=
  (dedup_first_occurrence [("a", BenchRow.mk 1 1 1 "ns"), ("a", BenchRow.mk 2 2 2 "ns"),
    ("b", BenchRow.mk 3 3 3 "ns")]).2.2.2.1 "a"

/-- Inserting one past the first index of `x` (as lines 240-243 do) lands the
new element immediately after the first occurrence of `x`. -/
lemma pyIndexInsertSplit (l : List String) (x y : String) (hx : x ∈ l) :
    ∃ l1 l2, l = l1 ++ x :: l2 ∧ x ∉ l1 ∧
      pyListInsert l (pyIndex l x + 1) y = l1 ++ x :: y :: l2 := by
  induction l with
  | nil => exact absurd hx (List.not_mem_nil x)
  | cons a rest ih =>
    by_cases hax : a = x
    · subst hax
      refine ⟨[], rest, rfl, List.not_mem_nil a, ?_⟩
      simp [pyIndex, pyListInsert]
    · have hx' : x ∈ rest := by
        rcases List.mem_cons.mp hx with h | h
        · exact absurd h.symm hax
        · exact h
      obtain ⟨l1, l2, hsplit, hnot, hins⟩ := ih hx'
      refine ⟨a :: l1, l2, by rw [hsplit]; rfl, ?_, ?_⟩
      · intro hmem
        rcases List.mem_cons.mp hmem with h | h
        · exact hax h.symm
        · exact hnot h
      · have hidx : pyIndex (a :: rest) x = pyIndex rest x + 1 := by simp [pyIndex, hax]
        have hstep : pyListInsert (a :: rest) (pyIndex rest x + 1 + 1) y =
            a :: pyListInsert rest (pyIndex rest x + 1) y := by
          simp [pyListInsert]
        rw [hidx, hstep, hins]
        rfl

/-- Removing `y` from `l1 ++ x :: y :: l2` with `y` absent from `l1` and
distinct from `x` removes exactly the displayed occurrence. -/
lemma pyRemoveAppend (l1 : List String) (x y : String) (l2 : List String)
    (hy1 : y ∉ l1) (hyx : y ≠ x) :
    pyRemove (l1 ++ x :: y :: l2) y = l1 ++ x :: l2 := by
  induction l1 with
  | nil =>
    have hxy : ¬(x = y) := fun h => hyx h.symm
    simp [pyRemove, hxy]
  | cons a t ih =>
    have hay : ¬(a = y) := fun h => hy1 (h ▸ List.mem_cons_self a t)
    have ht : y ∉ t := fun h => hy1 (List.mem_cons_of_mem a h)
    simp only [List.cons_append, pyRemove, if_neg hay]
    exact congrArg (List.cons a) (ih ht)

/-- C5: whenever the computed relative-change column (`difference_master` in
the code, `relative_change` in the spec) is present, the reordering of lines
240-243 places it immediately after the first `time_unit` column, for any
input column order, and deleting it from the reordered header row gives back
the other columns in their original relative order. -/
theorem relativeChange_column_placement (headers : List String)
    (htu : "time_unit" ∈ pyRemove headers "difference_master")
    (hdm : "difference_master" ∉ pyRemove headers "difference_master") :
    ∃ l1 l2, reorderHeaders headers = l1 ++ "time_unit" :: "difference_master" :: l2
      ∧ "time_unit" ∉ l1
      ∧ pyRemove (reorderHeaders headers) "difference_master" =
          pyRemove headers "difference_master" := by
  obtain ⟨l1, l2, hsplit, hnot, hins⟩ :=
    pyIndexInsertSplit (pyRemove headers "difference_master") "time_unit" "difference_master" htu
  have hre : reorderHeaders headers = l1 ++ "time_unit" :: "difference_master" :: l2 := hins
  refine ⟨l1, l2, hre, hnot, ?_⟩
  have hdm1 : "difference_master" ∉ l1 := fun hmem =>
    hdm (by rw [hsplit]; exact List.mem_append_left _ hmem)
  have hne : "difference_master" ≠ "time_unit" := by decide
  rw [hre, pyRemoveAppend l1 "time_unit" "difference_master" l2 hdm1 hne]
  exact hsplit.symm

/-- Witness for `relativeChange_column_placement` at a header row holding an
extra column after `time_unit`. -/
theorem relativeChange_column_placement_witness :
    ("time_unit" ∈ pyRemove ["iterations", "real_time", "cpu_time", "time_unit",
        "extra", "difference_master"] "difference_master")
    ∧ ∃ l1 l2,
        reorderHeaders ["iterations", "real_time", "cpu_time", "time_unit",
          "extra", "difference_master"] =
          l1 ++ "time_unit" :: "difference_master" :: l2
        ∧ "time_unit" ∉ l1
        ∧ pyRemove (reorderHeaders ["iterations", "real_time", "cpu_time", "time_unit",
            "extra", "difference_master"]) "difference_master" =
          pyRemove ["iterations", "real_time", "cpu_time", "time_unit",
            "extra", "difference_master"] "difference_master" :=
  ⟨by decide,
   relativeChange_column_placement
     ["iterations", "real_time", "cpu_time", "time_unit", "extra", "difference_master"]
     (by decide) (by decide)⟩

/-- C8: the publish step searches the listed gists for one whose description
starts with the computed `"{host}_{branch}"` description (lines 252-256); if
one exists the first such gist is edited in place, otherwise a new gist with
that description is created (lines 258-285), and the chosen action is always
exactly one of the two. -/
theorem publish_upsert (gists : List GistEntry) (host branch : String) :
    ((∃ g, g ∈ gists ∧ pyStartsWith g.description (runDescription host branch) = true) →
      ∃ g, findUpdateGist gists (runDescription host branch) = some g ∧
        choosePublishAction gists (runDescription host branch) = GistAction.edit g.id)
    ∧ ((∀ g, g ∈ gists → pyStartsWith g.description (runDescription host branch) = false) →
      choosePublishAction gists (runDescription host branch) =
        GistAction.create (runDescription host branch))
    ∧ ((∃ i, choosePublishAction gists (runDescription host branch) = GistAction.edit i) ∨
      choosePublishAction gists (runDescription host branch) =
        GistAction.create (runDescription host branch)) := by
  refine ⟨?_, ?_, ?_⟩
  · rintro ⟨g, hg, hp⟩
    cases hfind : findUpdateGist gists (runDescription host branch) with
    | none =>
      have hall := List.find?_eq_none.mp hfind g hg
      rw [hp] at hall
      exact absurd rfl hall
    | some g' =>
      exact ⟨g', rfl, by simp [choosePublishAction, hfind]⟩
  · intro h
    cases hfind : findUpdateGist gists (runDescription host branch) with
    | none => simp [choosePublishAction, hfind]
    | some g' =>
      have hmem := List.mem_of_find?_eq_some hfind
      have hp := List.find?_some hfind
      rw [h g' hmem] at hp
      exact absurd hp (by simp)
  · cases hfind : findUpdateGist gists (runDescription host branch) with
    | none => exact Or.inr (by simp [choosePublishAction, hfind])
    | some g' => exact Or.inl ⟨g'.id, by simp [choosePublishAction, hfind]⟩

/-- Witness for `publish_upsert` at a one-gist store whose description starts
with the computed description. -/
theorem publish_upsert_witness :
    (∃ g, g ∈ [GistEntry.mk "g7" "box_master 2024-01-01"] ∧
      pyStartsWith g.description (runDescription "box" "master") = true)
    ∧ ∃ g, findUpdateGist [GistEntry.mk "g7" "box_master 2024-01-01"]
        (runDescription "box" "master") = some g ∧
        choosePublishAction [GistEntry.mk "g7" "box_master 2024-01-01"]
          (runDescription "box" "master") = GistAction.edit g.id :=
  ⟨⟨GistEntry.mk "g7" "box_master 2024-01-01", by decide, by decide⟩,
   (publish_upsert [GistEntry.mk "g7" "box_master 2024-01-01"] "box" "master").1
     ⟨GistEntry.mk "g7" "box_master 2024-01-01", by decide, by decide⟩⟩

/-- C10: whenever the notification tail completes, exactly one mail dispatch
happens and its recipient is the first entry of the configured recipient list
(`send_mail(MAIL_RECEIVER[0], ...)`, line 322; one `sendmail` call, line 160);
a later entry of the list receives the message only if it equals that first
entry. -/
theorem email_first_recipient_only (gists : List GistEntry) (descr : String)
    (gistOutcome : Except String Unit) (graphiteServer : Bool)
    (pushOutcome : Except String Unit) (sender : String)
    (receivers : List String) (evs : List PipeEvent)
    (h : pipelineTail gists descr gistOutcome graphiteServer pushOutcome sender receivers =
      Except.ok evs) :
    ∃ r rest, receivers = r :: rest ∧ sentMails evs = [(sender, r)] ∧
      ∀ t, t ∈ rest → (sender, t) ∈ sentMails evs → t = r := by
  cases gistOutcome with
  | error e => exact absurd h (by simp [pipelineTail])
  | ok u =>
    cases receivers with
    | nil => exact absurd h (by simp [pipelineTail])
    | cons r rest =>
      have h' : Except.ok ([PipeEvent.published (choosePublishAction gists descr)] ++
          (if graphiteServer then send_graphite_events pushOutcome else []) ++
          send_mail_events sender r) = Except.ok evs := h
      have hevs : evs = [PipeEvent.published (choosePublishAction gists descr)] ++
          (if graphiteServer then send_graphite_events pushOutcome else []) ++
          send_mail_events sender r := by
        injection h' with h''
        exact h''.symm
      have hm : sentMails evs = [(sender, r)] := by
        rw [hevs]
        cases graphiteServer <;> cases pushOutcome <;>
          simp [sentMails, send_graphite_events, send_mail_events]
      refine ⟨r, rest, rfl, hm, ?_⟩
      intro t ht hmem
      rw [hm] at hmem
      have := List.mem_singleton.mp hmem
      exact (Prod.mk.injEq sender t sender r ▸ this).2.symm ▸ rfl

/-- Witness for `email_first_recipient_only` at a two-recipient configuration. -/
theorem email_first_recipient_only_witness :
    ∃ r rest, (["alice", "bob"] : List String) = r :: rest ∧
      sentMails [PipeEvent.published (GistAction.create "d"),
        PipeEvent.mailSent "from" "alice"] = [("from", r)] ∧
      ∀ t, t ∈ rest →
        ("from", t) ∈ sentMails [PipeEvent.published (GistAction.create "d"),
          PipeEvent.mailSent "from" "alice"] → t = r :=
  email_first_recipient_only [] "d" (Except.ok ()) false (Except.ok ()) "from"
    ["alice", "bob"]
    [PipeEvent.published (GistAction.create "d"), PipeEvent.mailSent "from" "alice"] rfl

/-- Witness for `date_extraction` at the malformed metadata line "20 bogus". -/
theorem date_extraction_witness :
    (pyStartsWith "20 bogus" "20" = true)
    ∧ (isTableHeaderLine "20 bogus" = false)
    ∧ (parseDateTime (pyStrip "20 bogus") = none)
    ∧ scanResults ["20 bogus"] false none = Except.error dateFormatError :=
  ⟨by decide, by decide, by decide,
    date_extraction.2.2 "20 bogus" [] none (by decide) (by decide) (by decide)⟩
